import Mathlib

/-!
# Verification of the OpenFx function deploy command

Shallow embedding of `src/cmd/function/deploy.go` (package `function` of
`keti-openfx/openfx-cli-OAuth2`), together with proofs about its
environment-merging, request-building and orchestration behaviour.

Go `map[string]string` values are modelled as association lists with the
Go map-assignment operation (`m[k] = v` replaces the entry for `k`, or
appends a fresh one).  External collaborators (the filesystem, the YAML
parser, `docker push`, the gRPC deploy client, the config loader) are
modelled as oracle functions supplied as parameters.
-/

namespace OpenfxDeploy

/-- Model of a Go `map[string]string`: an association list of entries.
Well-formed values (those produced by Go map operations) have pairwise
distinct keys. -/
abbrev StrMap := List (String × String)

/-- Go map assignment `m[k] = v`: replace the entry for `k` if present,
otherwise append `(k, v)`. -/
def mapSet : StrMap → String → String → StrMap
  | [], k, v => [(k, v)]
  | (a, b) :: rest, k, v =>
    if a = k then (k, v) :: rest else (a, b) :: mapSet rest k v

/-- Go map lookup `m[k]` (`none` models a missing key). -/
def mapGet (m : StrMap) (k : String) : Option String :=
  match m with
  | [] => none
  | (a, b) :: rest => if a = k then some b else mapGet rest k

/-- The value attached to the LAST entry for `k` in an arbitrary
association list (for lists with distinct keys this agrees with
`mapGet`). -/
def lookupLast : StrMap → String → Option String
  | [], _ => none
  | (a, b) :: rest, k =>
    match lookupLast rest k with
    | some v => some v
    | none => if a = k then some b else none

/-- Go's `for k, v := range entries { m[k] = v }`: fold map assignment
over a list of entries. -/
def mapSets (m : StrMap) (entries : StrMap) : StrMap :=
  entries.foldl (fun acc p => mapSet acc p.1 p.2) m

/-- `mergeMap` from deploy.go lines 194-204: copy all of `i` into a fresh
map, then all of `j`, so entries of `j` overwrite same-keyed entries of
`i`. -/
def mergeMap (i j : StrMap) : StrMap :=
  mapSets (mapSets [] i) j

/-- The keys of an association list, in order. -/
def keys (m : StrMap) : List String := m.map Prod.fst

/-- Distinct-keys invariant maintained by Go maps. -/
def NodupKeys (m : StrMap) : Prop := (keys m).Nodup

theorem mapGet_mapSet (m : StrMap) (a b k : String) :
    mapGet (mapSet m a b) k = if a = k then some b else mapGet m k := by
  induction m with
  | nil => simp [mapSet, mapGet]
  | cons p rest ih =>
    obtain ⟨x, y⟩ := p
    by_cases hx : x = a
    · subst hx
      simp only [mapSet, if_pos rfl]
      by_cases hk : x = k <;> simp [mapGet, hk]
    · simp only [mapSet, if_neg hx]
      by_cases hk : x = k
      · subst hk
        have : ¬ a = x := fun h => hx h.symm
        simp [mapGet, this]
      · simp [mapGet, hk, ih]

theorem keys_mapSet (m : StrMap) (a b : String) :
    keys (mapSet m a b) = if a ∈ keys m then keys m else keys m ++ [a] := by
  induction m with
  | nil => simp [mapSet, keys]
  | cons p rest ih =>
    obtain ⟨x, y⟩ := p
    by_cases hx : x = a
    · subst hx
      simp [mapSet, keys]
    · have hax : ¬ a = x := fun h => hx h.symm
      simp only [mapSet, if_neg hx, keys, List.map_cons] at ih ⊢
      by_cases hmem : a ∈ List.map Prod.fst rest
      · simp [hmem, hax, ih]
      · simp [hmem, hax, ih]

theorem nodupKeys_mapSet {m : StrMap} (h : NodupKeys m) (a b : String) :
    NodupKeys (mapSet m a b) := by
  unfold NodupKeys at *
  rw [keys_mapSet]
  by_cases hmem : a ∈ keys m
  · simpa [hmem] using h
  · simp only [hmem, if_false]
    have hd : List.Disjoint (keys m) [a] := by
      intro x hx hxa
      simp only [List.mem_singleton] at hxa
      exact hmem (hxa ▸ hx)
    exact List.Nodup.append h (List.nodup_singleton a) hd

theorem nodupKeys_mapSets {m : StrMap} (h : NodupKeys m) (l : StrMap) :
    NodupKeys (mapSets m l) := by
  induction l generalizing m with
  | nil => exact h
  | cons p rest ih => exact ih (nodupKeys_mapSet h p.1 p.2)

theorem mapGet_mapSets (m l : StrMap) (k : String) :
    mapGet (mapSets m l) k =
      match lookupLast l k with
      | some v => some v
      | none => mapGet m k := by
  induction l generalizing m with
  | nil => simp [mapSets, lookupLast]
  | cons p rest ih =>
    obtain ⟨a, b⟩ := p
    show mapGet (mapSets (mapSet m a b) rest) k = _
    rw [ih]
    cases hrest : lookupLast rest k with
    | some v => simp [lookupLast, hrest]
    | none =>
      simp only [lookupLast, hrest, mapGet_mapSet]
      by_cases hak : a = k <;> simp [hak]

theorem lookupLast_eq_none_of_not_mem {m : StrMap} {k : String}
    (h : k ∉ keys m) : lookupLast m k = none := by
  induction m with
  | nil => rfl
  | cons p rest ih =>
    obtain ⟨a, b⟩ := p
    simp only [keys, List.map_cons, List.mem_cons] at h
    push_neg at h
    have hak : ¬ a = k := fun hh => h.1 hh.symm
    simp [lookupLast, ih (by simpa [keys] using h.2), hak]

theorem lookupLast_eq_mapGet {m : StrMap} (h : NodupKeys m) (k : String) :
    lookupLast m k = mapGet m k := by
  induction m with
  | nil => rfl
  | cons p rest ih =>
    obtain ⟨a, b⟩ := p
    unfold NodupKeys keys at h
    simp only [List.map_cons, List.nodup_cons] at h
    by_cases hak : a = k
    · subst hak
      have : lookupLast rest a = none :=
        lookupLast_eq_none_of_not_mem (by simpa [keys] using h.1)
      simp [lookupLast, mapGet, this]
    · simp only [lookupLast, mapGet, if_neg hak, ih h.2]
      cases mapGet rest k <;> simp

/-- Lookup in `mergeMap i j`: the last entry of `j` for `k` wins; only if
`j` does not mention `k` does the (last) entry of `i` apply. -/
theorem mapGet_mergeMap (i j : StrMap) (k : String) :
    mapGet (mergeMap i j) k =
      match lookupLast j k with
      | some v => some v
      | none => lookupLast i k := by
  unfold mergeMap
  rw [mapGet_mapSets]
  cases hj : lookupLast j k with
  | some v => simp
  | none =>
    simp only
    rw [mapGet_mapSets]
    cases hi : lookupLast i k <;> simp [mapGet]

/-! ## Data model -/

/-- Resource requirements (`config.FunctionResources`).  The record's
fields are owned by the external config package (not under src/); deploy.go
only passes the value through verbatim, so its exact shape is immaterial
to every claim. -/
structure FunctionResources where
  memory : String
  cpu : String
  gpu : String
deriving Repr, DecidableEq

/-- `config.Function`, restricted to the fields deploy.go reads
(`Name`, `Image`, `RegistryURL`, `Environment`, `EnvironmentFile`,
`Labels`, `Maintainer`, `Description`, `Constraints`, `Secrets`,
`Limits`, `Requests`).  `labels` is a Go pointer (`nil` modelled by
`none`). -/
structure Function where
  name : String
  image : String
  registryURL : String
  environment : StrMap
  environmentFile : List String
  labels : Option StrMap
  maintainer : String
  description : String
  constraints : List String
  secrets : List String
  limits : Option FunctionResources
  requests : Option FunctionResources
deriving Repr, DecidableEq

/-- `grpc.DeployConfig` as populated at deploy.go lines 115-131. -/
structure DeployConfig where
  fxGateway : String
  functionName : String
  image : String
  envVars : StrMap
  labels : StrMap
  annotations : StrMap
  constraints : List String
  secrets : List String
  limits : Option FunctionResources
  requests : Option FunctionResources
  minReplicas : Int
  maxReplicas : Int
  update : Bool
  replace : Bool
deriving Repr, DecidableEq

/-- `config.Services` as read by deploy.go (`fxServices`): the parsed
configuration.  deploy.go line 139 (`len(fxServices.Functions)`) and
line 143 (a two-variable `range` whose string key is written into
`function.Name`) pin `Functions` to a Go `map[string]Function`.  A Go
map carries no order, so `functions` here is only a representation of
the map's ENTRIES (name-keyed, keys unique); the order in which the
`range` at line 143 delivers those entries is a separate per-invocation
runtime choice, modelled by `Oracles.rangeFunctions` and constrained by
`PossibleRange`. -/
structure Services where
  functions : List (String × Function)
  fxGatewayURL : String
deriving Repr, DecidableEq

/-- Iteration semantics of the `range` over the Go map
`fxServices.Functions` (deploy.go line 143): every entry is delivered
exactly once, but the Go runtime deliberately randomizes the order
between invocations, so ANY permutation of the map's entries is a
possible delivery order — the configuration does not determine it. -/
def PossibleRange (entries order : List (String × Function)) : Prop :=
  entries.Perm order

/-- Errors surfaced by the command, tagged by their origin:
`conflictingFlags` / `missingConfig` / `configParse` from `preRunDeploy`,
`emptyRun` from the length check in `runDeploy` (Go returns
`errors.New("")`), `fileRead` / `fileParse` from `readFiles` (Go returns
the underlying read / unmarshal error), `push` from the docker-push
subprocess, `deploy` from the gRPC client. -/
inductive Err where
  | conflictingFlags
  | missingConfig
  | configParse (msg : String)
  | emptyRun
  | fileRead (file : String)
  | fileParse (file : String)
  | push (msg : String)
  | deploy (msg : String)
deriving Repr, DecidableEq

/-- Externally visible actions of one run, in order: log lines written by
`log.Info` / `fmt.Println`, subprocess invocations, file reads, and gRPC
deploy submissions. -/
inductive Event where
  | logPush (name image registry : String)
  | pushCall (image : String)
  | readCall (file : String)
  | logDeploy (name : String)
  | deployCall (cfg : DeployConfig)
  | logURL (gateway name : String)
  | printError (e : Err)
deriving Repr, DecidableEq

/-- The external collaborators deploy.go invokes, as oracles:
`readFile` is `ioutil.ReadFile` (`none` = missing/unreadable),
`parseEnvFile` is `yaml.Unmarshal` into `config.EnvironmentFile`
(`none` = not a valid key/value mapping, `some m` = its `Environment`
mapping), `push` / `pushPipe` are `builder.ExecCommand` /
`builder.ExecCommandPipe` running `docker push`, `grpcDeploy` is
`grpc.Deploy`, `parseConfig` is `parseConfigFile`, and
`getFxGatewayURL` is `config.GetFxGatewayURL`.  `rangeFunctions` is the
Go runtime's choice of delivery order for the map `range` at deploy.go
line 143 — an input the program does not control; a faithful choice
satisfies `PossibleRange entries (rangeFunctions entries)`, and the
runtime may make a different choice on every invocation. -/
structure Oracles where
  readFile : String → Option String
  parseEnvFile : String → Option StrMap
  push : String → Except String Unit
  pushPipe : String → Except String Unit
  grpcDeploy : DeployConfig → String → Except String Unit
  parseConfig : Except String Services
  getFxGatewayURL : String → String → String
  rangeFunctions : List (String × Function) → List (String × Function)

/-! ## The embedded program -/

/-- `readFiles` (deploy.go lines 173-192) with its accumulator map
explicit: read each file in order, abort on the first read or parse
failure, otherwise fold the file's entries into the accumulated map. -/
def readFilesAux (O : Oracles) (envs : StrMap) :
    List String → List Event × Except Err StrMap
  | [] => ([], .ok envs)
  | file :: rest =>
    match O.readFile file with
    | none => ([.readCall file], .error (.fileRead file))
    | some contents =>
      match O.parseEnvFile contents with
      | none => ([.readCall file], .error (.fileParse file))
      | some m =>
        let p := readFilesAux O (mapSets envs m) rest
        (.readCall file :: p.1, p.2)

/-- `readFiles` proper: starts from the empty map (`envs :=
make(map[string]string)`). -/
def readFiles (O : Oracles) (files : List String) :
    List Event × Except Err StrMap :=
  readFilesAux O [] files

/-- The `grpc.DeployConfig` literal built at deploy.go lines 99-131:
labels default to the empty map when the pointer is nil, annotations get
a `maintainer` / `desc` entry only for non-empty fields, and `"regcred"`
is appended to the declared secrets. -/
def buildDeployConfig (gw : String) (function : Function) (allEnvironment : StrMap)
    (update replace : Bool) (minreplicas maxreplicas : Int) : DeployConfig :=
  let labelMap : StrMap := match function.labels with
    | none => []
    | some l => l
  let annoMap0 : StrMap := []
  let annoMap1 :=
    if function.maintainer ≠ "" then
      mapSet annoMap0 "maintainer" function.maintainer
    else annoMap0
  let annoMap2 :=
    if function.description ≠ "" then
      mapSet annoMap1 "desc" function.description
    else annoMap1
  { fxGateway := gw
    functionName := function.name
    image := function.image
    envVars := allEnvironment
    labels := labelMap
    annotations := annoMap2
    constraints := function.constraints
    secrets := function.secrets ++ ["regcred"]
    limits := function.limits
    requests := function.requests
    minReplicas := minreplicas
    maxReplicas := maxreplicas
    update := update
    replace := replace }

/-- `deploy` (deploy.go lines 91-136): resolve the environment files,
merge them over the inline environment (line 97:
`mergeMap(function.Environment, fileEnvironment)`), build the request
and submit it over gRPC. -/
def deploy (O : Oracles) (gw : String) (function : Function)
    (update replace : Bool) (minreplicas maxreplicas : Int) (token : String) :
    List Event × Except Err Unit :=
  let p := readFiles O function.environmentFile
  match p.2 with
  | .error e => (p.1, .error e)
  | .ok fileEnvironment =>
    let allEnvironment := mergeMap function.environment fileEnvironment
    let deployConfig :=
      buildDeployConfig gw function allEnvironment update replace minreplicas maxreplicas
    match O.grpcDeploy deployConfig token with
    | .error e => (p.1 ++ [.deployCall deployConfig], .error (.deploy e))
    | .ok _ => (p.1 ++ [.deployCall deployConfig], .ok ())

/-- The push step of the loop body: `ExecCommandPipe` when
`deployverbose` is set, `ExecCommand` otherwise (deploy.go lines
148-158); both run `docker push <image>`. -/
def runPush (O : Oracles) (deployVerbose : Bool) (image : String) :
    Except String Unit :=
  if deployVerbose then O.pushPipe image else O.push image

/-- One iteration of the `runDeploy` loop (deploy.go lines 143-168) for
the pair `(name, function)` delivered by the range: overwrite
`function.Name` with the map key, log and push the image, then deploy,
then log the trigger URL. -/
def deployFunction (O : Oracles) (gw : String) (update replace : Bool)
    (minreplicas maxreplicas : Int) (token : String) (deployVerbose : Bool)
    (name : String) (function0 : Function) : List Event × Except Err Unit :=
  let function := { function0 with name := name }
  let logEv := Event.logPush function.name function.image function.registryURL
  match runPush O deployVerbose function.image with
  | .error e => ([logEv, .pushCall function.image], .error (.push e))
  | .ok _ =>
    let p := deploy O gw function update replace minreplicas maxreplicas token
    match p.2 with
    | .error e =>
      ([logEv, .pushCall function.image, .logDeploy function.name] ++ p.1, .error e)
    | .ok _ =>
      ([logEv, .pushCall function.image, .logDeploy function.name] ++ p.1
        ++ [.logURL gw function.name], .ok ())

/-- The `for name, function := range fxServices.Functions` loop of
`runDeploy`: process each function in iteration order, returning the
first error. -/
def runLoop (O : Oracles) (gw : String) (update replace : Bool)
    (minreplicas maxreplicas : Int) (token : String) (deployVerbose : Bool) :
    List (String × Function) → List Event × Except Err Unit
  | [] => ([], .ok ())
  | (name, function) :: rest =>
    let p := deployFunction O gw update replace minreplicas maxreplicas token
      deployVerbose name function
    match p.2 with
    | .error e => (p.1, .error e)
    | .ok _ =>
      let q := runLoop O gw update replace minreplicas maxreplicas token
        deployVerbose rest
      (p.1 ++ q.1, q.2)

/-- `runDeploy` (deploy.go lines 138-171): reject an empty function set
(`errors.New("")`), else run the loop.  `functions` is the sequence of
map entries in the order the `range` delivers them this invocation (a
runtime choice, see `Oracles.rangeFunctions`); theorems quantifying over
it therefore cover every possible iteration order. -/
def runDeploy (O : Oracles) (gw : String) (update replace : Bool)
    (minreplicas maxreplicas : Int) (token : String) (deployVerbose : Bool)
    (functions : List (String × Function)) : List Event × Except Err Unit :=
  if functions.length = 0 then ([], .error .emptyRun)
  else runLoop O gw update replace minreplicas maxreplicas token deployVerbose functions

/-- `preRunDeploy` (deploy.go lines 70-89): reject `update && replace`,
require a config file, parse it, and resolve the gateway URL.  Returns
the parsed services and the resolved gateway on success. -/
def preRunDeploy (O : Oracles) (update replace : Bool)
    (configFile gatewayFlag : String) : Except Err (Services × String) :=
  if update && replace then .error .conflictingFlags
  else if configFile = "" then .error .missingConfig
  else
    match O.parseConfig with
    | .error e => .error (.configParse e)
    | .ok fxServices =>
      .ok (fxServices, O.getFxGatewayURL gatewayFlag fxServices.fxGatewayURL)

/-- The command execution as wired at deploy.go lines 60-67: the CLI
framework runs `PreRunE` first and propagates its error; the `Run`
handler then calls `runDeploy`, prints the error message if any, and
returns without an error value (it is a `Run`, not a `RunE`, handler, so
its result type carries no failure). -/
def executeDeployCmd (O : Oracles) (update replace deployVerbose : Bool)
    (configFile gatewayFlag token : String) (minreplicas maxreplicas : Int) :
    List Event × Except Err Unit :=
  match preRunDeploy O update replace configFile gatewayFlag with
  | .error e => ([], .error e)
  | .ok (fxServices, gateway) =>
    let p := runDeploy O gateway update replace minreplicas maxreplicas token
      deployVerbose (O.rangeFunctions fxServices.functions)
    match p.2 with
    | .error e => (p.1 ++ [.printError e], .ok ())
    | .ok _ => (p.1, .ok ())

/-- Modelled from the spec: the process exit status.  `main` and the
root command are not under src/; per the spec's boundary contract the
process exits non-zero exactly when the CLI framework's execution
returns an error (which cobra does for a failing `PreRunE` or `RunE`). -/
def exitCode (r : Except Err Unit) : Nat :=
  match r with
  | .ok _ => 0
  | .error _ => 1

/-! ## Observation helpers -/

/-- The environment mapping of the first deploy submission in a trace. -/
def deployedEnv (evs : List Event) : Option StrMap :=
  evs.findSome? fun e =>
    match e with
    | .deployCall cfg => some cfg.envVars
    | _ => none

/-- The function names of the push progress lines of a trace, in order. -/
def pushedNames (evs : List Event) : List String :=
  evs.filterMap fun e =>
    match e with
    | .logPush n _ _ => some n
    | _ => none

/-- The event mentions no function name other than `nm` (log lines, the
deploy request and the trigger URL all use `nm`). -/
def eventUsesName (nm : String) : Event → Prop
  | .logPush n _ _ => n = nm
  | .logDeploy n => n = nm
  | .deployCall cfg => cfg.functionName = nm
  | .logURL _ n => n = nm
  | _ => True

/-! ## Claim theorems -/

/-- C9: a run whose DeploymentRun contains zero functions fails
immediately with the (empty-message) configuration error, with an empty
trace — so before any push, deploy submission or file read. -/
theorem runDeploy_empty_aborts (O : Oracles) (gw : String)
    (update replace : Bool) (minreplicas maxreplicas : Int)
    (token : String) (deployVerbose : Bool) :
    runDeploy O gw update replace minreplicas maxreplicas token deployVerbose []
      = ([], .error .emptyRun) := rfl

/-- C6: the request's secret list is the declared secrets with the
implicit `"regcred"` entry appended once at the end, so its length is
always `declared + 1` — also when `"regcred"` is already declared (no
deduplication). -/
theorem deployConfig_secrets (gw : String) (fn : Function) (env : StrMap)
    (update replace : Bool) (mn mx : Int) :
    (buildDeployConfig gw fn env update replace mn mx).secrets
        = fn.secrets ++ ["regcred"] ∧
    (buildDeployConfig gw fn env update replace mn mx).secrets.length
        = fn.secrets.length + 1 := by
  refine ⟨rfl, ?_⟩
  simp [buildDeployConfig]

/-- C7: the request's annotation mapping has a `maintainer` key iff the
function's maintainer string is non-empty, a `desc` key iff its
description is non-empty, and no other key; when both strings are empty
it is the empty mapping. -/
theorem deployConfig_annotations (gw : String) (fn : Function) (env : StrMap)
    (update replace : Bool) (mn mx : Int) :
    ("maintainer" ∈ keys (buildDeployConfig gw fn env update replace mn mx).annotations
        ↔ fn.maintainer ≠ "") ∧
    ("desc" ∈ keys (buildDeployConfig gw fn env update replace mn mx).annotations
        ↔ fn.description ≠ "") ∧
    (∀ k ∈ keys (buildDeployConfig gw fn env update replace mn mx).annotations,
        k = "maintainer" ∨ k = "desc") ∧
    (fn.maintainer = "" → fn.description = "" →
        (buildDeployConfig gw fn env update replace mn mx).annotations = []) := by
  by_cases hm : fn.maintainer = "" <;> by_cases hd : fn.description = "" <;>
    simp [buildDeployConfig, mapSet, keys, hm, hd]

/-- Fixture: a function with every optional field empty. -/
def plainFn : Function :=
  { name := "", image := "img", registryURL := "",
    environment := [], environmentFile := [],
    labels := none, maintainer := "", description := "",
    constraints := [], secrets := [],
    limits := none, requests := none }

/-- Witness for C7 at a concrete function with empty maintainer and
description: the annotation mapping is empty. -/
theorem deployConfig_annotations_witness :
    (buildDeployConfig "gw" plainFn [] false false 1 1).annotations = [] :=
  (deployConfig_annotations "gw" plainFn [] false false 1 1).2.2.2 rfl rfl

/-- C2: when the update and replace flags are both true, the command
fails with the conflicting-flags configuration error from `PreRunE`, with
an empty trace — no push and no deploy submission is ever invoked. -/
theorem updateAndReplace_aborts (O : Oracles) (deployVerbose : Bool)
    (configFile gatewayFlag token : String) (minreplicas maxreplicas : Int) :
    executeDeployCmd O true true deployVerbose configFile gatewayFlag token
      minreplicas maxreplicas = ([], .error .conflictingFlags) := rfl

/-- Fixture for the C1 counterexample: inline environment `K = c`, one
environment file declaring `K = a`. -/
def envFn : Function :=
  { name := "f", image := "img", registryURL := "reg",
    environment := [("K", "c")], environmentFile := ["env.yml"],
    labels := none, maintainer := "", description := "",
    constraints := [], secrets := [],
    limits := none, requests := none }

/-- Fixture oracle: `env.yml` reads and parses to the mapping `K = a`;
`a.yml` / `b.yml` parse to `K = v1` / `K = v2`; pushes and deploys
succeed. -/
def envOracle : Oracles :=
  { readFile := fun f =>
      if f = "env.yml" then some "K: a"
      else if f = "a.yml" then some "K: v1"
      else if f = "b.yml" then some "K: v2"
      else none
    parseEnvFile := fun c =>
      if c = "K: a" then some [("K", "a")]
      else if c = "K: v1" then some [("K", "v1")]
      else if c = "K: v2" then some [("K", "v2")]
      else none
    push := fun _ => .ok ()
    pushPipe := fun _ => .ok ()
    grpcDeploy := fun _ _ => .ok ()
    parseConfig := .error "unused"
    getFxGatewayURL := fun g _ => g
    rangeFunctions := fun l => l }

/-- C1 counterexample: with inline `K = c` and file `K = a`, the deploy
request's environment maps `K` to the FILE value `a`, not to the inline
value `c` — line 97 passes the inline map as the first (overwritten)
argument of `mergeMap`, so file-sourced values win over inline. -/
theorem inline_does_not_win_cex :
    (deployedEnv (deploy envOracle "gw" envFn false false 1 1 "tok").1).map
        (fun m => mapGet m "K") = some (some "a") ∧
    (some (some "a") : Option (Option String)) ≠ some (some "c") := by
  exact ⟨rfl, by decide⟩

/-- C1 (amended): the resolved environment is the file-sourced maps
merged in declared order UNDER the inline declarations: whenever the file
environment defines a key, that value wins over any inline value for the
same key, and among files the later-listed file wins.  Concretely, for
two declared files both defining `k`, the resolved value is the second
file's, whatever the inline map and the first file say. -/
theorem envResolution_amended (O : Oracles) (inline m1 m2 : StrMap)
    (f1 f2 c1 c2 k b : String)
    (h1 : O.readFile f1 = some c1) (h2 : O.parseEnvFile c1 = some m1)
    (h3 : O.readFile f2 = some c2) (h4 : O.parseEnvFile c2 = some m2)
    (hb : lookupLast m2 k = some b) :
    (∀ i j k0 b0, lookupLast j k0 = some b0 →
        mapGet (mergeMap i j) k0 = some b0) ∧
    ∃ env, (readFiles O [f1, f2]).2 = .ok env ∧
      mapGet (mergeMap inline env) k = some b := by
  constructor
  · intro i j k0 b0 h0
    rw [mapGet_mergeMap, h0]
  · refine ⟨mapSets (mapSets [] m1) m2, ?_, ?_⟩
    · simp [readFiles, readFilesAux, h1, h2, h3, h4]
    · have hnd : NodupKeys (mapSets (mapSets [] m1) m2) :=
        nodupKeys_mapSets (nodupKeys_mapSets (by simp [NodupKeys, keys]) m1) m2
      rw [mapGet_mergeMap, lookupLast_eq_mapGet hnd, mapGet_mapSets, hb]

/-- Witness for the amended C1 at concrete inputs: files `a.yml`
(`K = v1`) then `b.yml` (`K = v2`) with inline `K = c` resolve `K` to
`v2`. -/
theorem envResolution_amended_witness :
    (∀ i j k0 b0, lookupLast j k0 = some b0 →
        mapGet (mergeMap i j) k0 = some b0) ∧
    ∃ env, (readFiles envOracle ["a.yml", "b.yml"]).2 = .ok env ∧
      mapGet (mergeMap [("K", "c")] env) "K" = some "v2" :=
  envResolution_amended envOracle [("K", "c")] [("K", "v1")] [("K", "v2")]
    "a.yml" "b.yml" "K: v1" "K: v2" "K" "v2"
    (by decide) (by decide) (by decide) (by decide) (by decide)

/-- Every good file before the failing one just folds its entries into
the accumulator, so the result of `readFilesAux` over `good ++ l` agrees
with a run over `l` from some accumulator. -/
theorem readFilesAux_append_ok (O : Oracles) (good : List String)
    (hok : ∀ g ∈ good, ∃ c m, O.readFile g = some c ∧ O.parseEnvFile c = some m)
    (l : List String) :
    ∀ envs, ∃ envs2,
      (readFilesAux O envs (good ++ l)).2 = (readFilesAux O envs2 l).2 := by
  induction good with
  | nil => exact fun envs => ⟨envs, rfl⟩
  | cons g t ih =>
    intro envs
    obtain ⟨c, m, hc, hm⟩ := hok g (List.mem_cons_self g t)
    obtain ⟨envs2, he⟩ :=
      ih (fun g' hg' => hok g' (List.mem_cons_of_mem g hg')) (mapSets envs m)
    refine ⟨envs2, ?_⟩
    simp only [List.cons_append, readFilesAux, hc, hm]
    exact he

/-- C8: environment resolution aborts at the first bad file, whatever
files remain after it: a missing/unreadable file yields the read error
for that file, a file whose contents do not parse as a key/value mapping
yields the parse error for that file — the bad file is never skipped. -/
theorem readFiles_aborts_on_bad_file (O : Oracles) (good : List String)
    (f : String) (rest : List String)
    (hok : ∀ g ∈ good, ∃ c m, O.readFile g = some c ∧ O.parseEnvFile c = some m) :
    (O.readFile f = none →
      (readFiles O (good ++ f :: rest)).2 = .error (.fileRead f)) ∧
    (∀ c, O.readFile f = some c → O.parseEnvFile c = none →
      (readFiles O (good ++ f :: rest)).2 = .error (.fileParse f)) := by
  obtain ⟨envs2, he⟩ := readFilesAux_append_ok O good hok (f :: rest) []
  unfold readFiles
  rw [he]
  constructor
  · intro hf
    simp [readFilesAux, hf]
  · intro c hf hc
    simp [readFilesAux, hf, hc]

/-- Fixture oracle for the C8 witness: `good.yml` parses fine,
`missing.yml` is unreadable, `bad.yml` reads but does not parse. -/
def badFileOracle : Oracles :=
  { readFile := fun f =>
      if f = "good.yml" then some "A: B"
      else if f = "bad.yml" then some "not a mapping"
      else none
    parseEnvFile := fun c =>
      if c = "A: B" then some [("A", "B")] else none
    push := fun _ => .ok ()
    pushPipe := fun _ => .ok ()
    grpcDeploy := fun _ _ => .ok ()
    parseConfig := .error "unused"
    getFxGatewayURL := fun g _ => g
    rangeFunctions := fun l => l }

/-- Witness for C8 at concrete inputs: after the good file, the missing
file aborts resolution with its read error, even though a further file is
still listed. -/
theorem readFiles_aborts_witness :
    (readFiles badFileOracle ["good.yml", "missing.yml", "other.yml"]).2
      = .error (.fileRead "missing.yml") :=
  (readFiles_aborts_on_bad_file badFileOracle ["good.yml"] "missing.yml"
    ["other.yml"]
    (by
      intro g hg
      simp only [List.mem_singleton] at hg
      exact ⟨"A: B", [("A", "B")], by rw [hg]; decide, by decide⟩)).1
    (by decide)

/-- Helper for C3: the loop over `good ++ p :: rest`, where every
function of `good` succeeds and `p` fails, produces exactly the traces of
`good` followed by `p`'s trace and `p`'s error — independently of
`rest`. -/
theorem runLoop_failFast_aux (O : Oracles) (gw : String) (update replace : Bool)
    (mn mx : Int) (tok : String) (vb : Bool)
    (good : List (String × Function)) (p : String × Function)
    (rest : List (String × Function)) (e : Err)
    (hok : ∀ q ∈ good,
      (deployFunction O gw update replace mn mx tok vb q.1 q.2).2 = .ok ())
    (hfail : (deployFunction O gw update replace mn mx tok vb p.1 p.2).2 = .error e) :
    runLoop O gw update replace mn mx tok vb (good ++ p :: rest) =
      ((good.map
          (fun q => (deployFunction O gw update replace mn mx tok vb q.1 q.2).1)).flatten
        ++ (deployFunction O gw update replace mn mx tok vb p.1 p.2).1,
       .error e) := by
  induction good with
  | nil =>
    obtain ⟨pn, pf⟩ := p
    simp only [List.nil_append, List.map_nil, List.flatten_nil]
    simp only at hfail
    simp [runLoop, hfail]
  | cons q t ih =>
    obtain ⟨qn, qf⟩ := q
    have hq : (deployFunction O gw update replace mn mx tok vb qn qf).2 = .ok () :=
      hok (qn, qf) (List.mem_cons_self _ _)
    have ht := ih (fun q' hq' => hok q' (List.mem_cons_of_mem _ hq'))
    simp only [List.cons_append, List.map_cons, List.flatten_cons, List.append_assoc]
    simp [runLoop, hq, ht]

/-- C3: once one function fails (push, environment resolution or remote
deploy), the whole run returns that single error with a trace consisting
of the completed functions' actions followed by the failing function's
actions — the trace does not depend on the remaining functions at all
(no push, file read or deploy submission for any of them) and contains
the already-deployed functions' submissions unrevoked. -/
theorem runDeploy_failFast (O : Oracles) (gw : String) (update replace : Bool)
    (mn mx : Int) (tok : String) (vb : Bool)
    (good : List (String × Function)) (p : String × Function)
    (rest : List (String × Function)) (e : Err)
    (hok : ∀ q ∈ good,
      (deployFunction O gw update replace mn mx tok vb q.1 q.2).2 = .ok ())
    (hfail : (deployFunction O gw update replace mn mx tok vb p.1 p.2).2 = .error e) :
    runDeploy O gw update replace mn mx tok vb (good ++ p :: rest) =
      ((good.map
          (fun q => (deployFunction O gw update replace mn mx tok vb q.1 q.2).1)).flatten
        ++ (deployFunction O gw update replace mn mx tok vb p.1 p.2).1,
       .error e) := by
  unfold runDeploy
  rw [if_neg (by simp)]
  exact runLoop_failFast_aux O gw update replace mn mx tok vb good p rest e hok hfail

/-- Fixtures shared by several concrete runs: three functions with no
environment files; the oracle below pushes `img2` with an error and
everything else successfully. -/
def wfn1 : Function := { plainFn with image := "img1" }

def wfn2 : Function := { plainFn with image := "img2" }

def wfn3 : Function := { plainFn with image := "img3" }

/-- Oracle whose docker push fails exactly on `img2`. -/
def pushFailOracle : Oracles :=
  { readFile := fun _ => none
    parseEnvFile := fun _ => none
    push := fun img => if img = "img2" then .error "boom" else .ok ()
    pushPipe := fun img => if img = "img2" then .error "boom" else .ok ()
    grpcDeploy := fun _ _ => .ok ()
    parseConfig := .error "unused"
    getFxGatewayURL := fun g _ => g
    rangeFunctions := fun l => l }

/-- Witness for C3 at a concrete three-function run whose second push
fails: the run returns that single push error, and its trace is the first
function's full trace followed by the failing function's trace, with
nothing from the third function. -/
theorem runDeploy_failFast_witness :
    runDeploy pushFailOracle "gw" true false 1 1 "tok" false
        [("f1", wfn1), ("f2", wfn2), ("f3", wfn3)] =
      ((([("f1", wfn1)]).map
          (fun q =>
            (deployFunction pushFailOracle "gw" true false 1 1 "tok" false
              q.1 q.2).1)).flatten
        ++ (deployFunction pushFailOracle "gw" true false 1 1 "tok" false
              "f2" wfn2).1,
       .error (.push "boom")) :=
  runDeploy_failFast pushFailOracle "gw" true false 1 1 "tok" false
    [("f1", wfn1)] ("f2", wfn2) [("f3", wfn3)] (.push "boom")
    (by
      intro q hq
      simp only [List.mem_singleton] at hq
      rw [hq]
      rfl)
    (by rfl)

/-- Every event emitted by the environment-file reader is a file read. -/
theorem readFilesAux_events (O : Oracles) (files : List String) :
    ∀ envs, ∀ e ∈ (readFilesAux O envs files).1, ∃ f, e = .readCall f := by
  induction files with
  | nil =>
    intro envs e he
    simp [readFilesAux] at he
  | cons f rest ih =>
    intro envs e he
    simp only [readFilesAux] at he
    cases hf : O.readFile f with
    | none =>
      simp only [hf] at he
      simp at he
      exact ⟨f, he⟩
    | some c =>
      simp only [hf] at he
      cases hc : O.parseEnvFile c with
      | none =>
        simp only [hc] at he
        simp at he
        exact ⟨f, he⟩
      | some m =>
        simp only [hc, List.mem_cons] at he
        rcases he with he | he
        · exact ⟨f, he⟩
        · exact ih (mapSets envs m) e he

/-- A trace of file reads contributes no push progress line. -/
theorem pushedNames_of_readCalls {evs : List Event}
    (h : ∀ e ∈ evs, ∃ f, e = .readCall f) : pushedNames evs = [] := by
  induction evs with
  | nil => rfl
  | cons e rest ih =>
    obtain ⟨f, hf⟩ := h e (List.mem_cons_self _ _)
    subst hf
    simpa [pushedNames] using ih fun e' he' => h e' (List.mem_cons_of_mem _ he')

theorem pushedNames_append (a b : List Event) :
    pushedNames (a ++ b) = pushedNames a ++ pushedNames b := by
  simp [pushedNames, List.filterMap_append]

/-- The deploy step logs no push progress line: its trace is file reads
plus at most one deploy submission. -/
theorem pushedNames_deploy (O : Oracles) (gw : String) (fn : Function)
    (update replace : Bool) (mn mx : Int) (tok : String) :
    pushedNames (deploy O gw fn update replace mn mx tok).1 = [] := by
  have hread : pushedNames (readFiles O fn.environmentFile).1 = [] :=
    pushedNames_of_readCalls fun e he => readFilesAux_events O _ [] e he
  unfold deploy
  dsimp only
  split
  · exact hread
  · split <;> (rw [pushedNames_append, hread]; rfl)

/-- One loop iteration logs exactly one push progress line, and it
carries the iteration's map key as the function name. -/
theorem pushedNames_deployFunction (O : Oracles) (gw : String)
    (update replace : Bool) (mn mx : Int) (tok : String) (vb : Bool)
    (name : String) (fn : Function) :
    pushedNames (deployFunction O gw update replace mn mx tok vb name fn).1
      = [name] := by
  unfold deployFunction
  dsimp only
  split
  · rfl
  · split
    · rw [pushedNames_append, pushedNames_deploy]
      rfl
    · rw [pushedNames_append, pushedNames_append, pushedNames_deploy]
      rfl

/-- When every function succeeds, the loop's trace is the concatenation
of the per-function traces, in list order. -/
theorem runLoop_all_ok (O : Oracles) (gw : String) (update replace : Bool)
    (mn mx : Int) (tok : String) (vb : Bool) (fns : List (String × Function))
    (hok : ∀ q ∈ fns,
      (deployFunction O gw update replace mn mx tok vb q.1 q.2).2 = .ok ()) :
    runLoop O gw update replace mn mx tok vb fns =
      ((fns.map
          (fun q => (deployFunction O gw update replace mn mx tok vb q.1 q.2).1)).flatten,
       .ok ()) := by
  induction fns with
  | nil => rfl
  | cons q t ih =>
    obtain ⟨qn, qf⟩ := q
    have hq : (deployFunction O gw update replace mn mx tok vb qn qf).2 = .ok () :=
      hok (qn, qf) (List.mem_cons_self _ _)
    have ht := ih fun q' hq' => hok q' (List.mem_cons_of_mem _ hq')
    simp [runLoop, hq, ht]

/-- The push progress lines of a concatenation of per-function traces
list the map keys in order. -/
theorem pushedNames_flatten_traces (O : Oracles) (gw : String)
    (update replace : Bool) (mn mx : Int) (tok : String) (vb : Bool)
    (fns : List (String × Function)) :
    pushedNames
        ((fns.map
          (fun q => (deployFunction O gw update replace mn mx tok vb q.1 q.2).1)).flatten)
      = fns.map Prod.fst := by
  induction fns with
  | nil => rfl
  | cons q t ih =>
    simp only [List.map_cons, List.flatten_cons, pushedNames_append,
      pushedNames_deployFunction, ih]
    rfl

/-- Fixture for C5: a parsed configuration whose function map holds the
two entries `a` and `b`. -/
def twoFnServices : Services :=
  { functions := [("a", wfn1), ("b", wfn3)], fxGatewayURL := "10.0.0.1" }

/-- Oracle for C5: every collaborator succeeds, the config parses to
`twoFnServices`, and this invocation's runtime happens to deliver the
map entries in the representation order. -/
def okRangeOracle : Oracles :=
  { envOracle with parseConfig := .ok twoFnServices }

/-- The same collaborators and the SAME parsed configuration, but in
this invocation the runtime delivers the range in the opposite order —
also a possible iteration of the same Go map. -/
def okRangeOracleRev : Oracles :=
  { okRangeOracle with rangeFunctions := List.reverse }

/-- C5 (code bug): deploy.go line 143 ranges over a Go
`map[string]Function`, whose delivery order the runtime randomizes per
invocation.  At a concrete two-function configuration: the reversed
entry order is also a possible range delivery of the same map (a
permutation of its entries); the two runs below differ only in the
runtime's order choice — the parsed configuration is identical — yet
they process the functions in different orders.  So the processing
order is neither the configuration's insertion order nor the same
deterministic order on every invocation, contradicting the claim.
(Strictly sequential processing in whatever order is delivered does
hold — see `runLoop_all_ok` and `pushedNames_flatten_traces`.) -/
theorem rangeOrder_not_deterministic :
    PossibleRange twoFnServices.functions
        (okRangeOracleRev.rangeFunctions twoFnServices.functions) ∧
    okRangeOracle.parseConfig = okRangeOracleRev.parseConfig ∧
    pushedNames (executeDeployCmd okRangeOracle true false false "config.yml"
        "" "tok" 1 1).1 = ["a", "b"] ∧
    pushedNames (executeDeployCmd okRangeOracleRev true false false "config.yml"
        "" "tok" 1 1).1 = ["b", "a"] ∧
    (["a", "b"] : List String) ≠ ["b", "a"] := by
  refine ⟨?_, rfl, rfl, rfl, by decide⟩
  show twoFnServices.functions.Perm twoFnServices.functions.reverse
  exact (List.reverse_perm _).symm

/-- Every event of the deploy step mentions only the function's own name:
file reads mention none, and the submitted request's `FunctionName` field
is `function.Name`. -/
theorem deploy_events_useName (O : Oracles) (gw : String) (fn : Function)
    (update replace : Bool) (mn mx : Int) (tok : String) :
    ∀ e ∈ (deploy O gw fn update replace mn mx tok).1,
      eventUsesName fn.name e := by
  have hread : ∀ e ∈ (readFiles O fn.environmentFile).1, eventUsesName fn.name e := by
    intro e he
    obtain ⟨f, hf⟩ := readFilesAux_events O _ [] e he
    subst hf
    trivial
  unfold deploy
  dsimp only
  split
  · exact hread
  · split <;>
    · intro e he
      rw [List.mem_append] at he
      rcases he with he | he
      · exact hread e he
      · simp only [List.mem_singleton] at he
        subst he
        rfl

/-- C10: the function name used for the push progress line, the deploy
request and the success URL is the key under which the function is stored
in the configuration mapping — the `Name` field carried inside the
`FunctionSpec` itself is overwritten by that key before any use, so the
whole iteration is insensitive to it. -/
theorem deployFunction_uses_map_key (O : Oracles) (gw : String)
    (update replace : Bool) (mn mx : Int) (tok : String) (vb : Bool)
    (name other : String) (fn : Function) :
    deployFunction O gw update replace mn mx tok vb name fn =
      deployFunction O gw update replace mn mx tok vb name
        { fn with name := other } ∧
    ∀ e ∈ (deployFunction O gw update replace mn mx tok vb name fn).1,
      eventUsesName name e := by
  refine ⟨rfl, ?_⟩
  have hdep := deploy_events_useName O gw { fn with name := name }
    update replace mn mx tok
  unfold deployFunction
  dsimp only
  split
  · intro e he
    simp only [List.mem_cons, List.not_mem_nil, or_false] at he
    rcases he with rfl | rfl
    · rfl
    · trivial
  · split
    · intro e he
      simp only [List.mem_append, List.mem_cons, List.not_mem_nil, or_false,
        List.mem_singleton] at he
      rcases he with (rfl | rfl | rfl) | he
      · rfl
      · trivial
      · rfl
      · exact hdep e he
    · intro e he
      simp only [List.mem_append, List.mem_cons, List.not_mem_nil, or_false,
        List.mem_singleton] at he
      rcases he with ((rfl | rfl | rfl) | he) | rfl
      · rfl
      · trivial
      · rfl
      · exact hdep e he
      · rfl

/-- Witness for C10 at concrete inputs: the iteration's result is
unchanged when the `FunctionSpec`'s own name field is replaced. -/
theorem deployFunction_uses_map_key_witness :
    deployFunction pushFailOracle "gw" true false 1 1 "tok" false "f" wfn1 =
      deployFunction pushFailOracle "gw" true false 1 1 "tok" false "f"
        { wfn1 with name := "zzz" } :=
  (deployFunction_uses_map_key pushFailOracle "gw" true false 1 1 "tok" false
    "f" "zzz" wfn1).1

/-- Fixture for C4: a parsed configuration with one function whose push
will fail. -/
def swallowServices : Services :=
  { functions := [("f", wfn2)], fxGatewayURL := "10.0.0.1" }

/-- Oracle for C4: config parses, but `docker push img2` fails. -/
def swallowOracle : Oracles :=
  { pushFailOracle with parseConfig := .ok swallowServices }

/-- C4 (code bug): at a concrete run whose push fails, `runDeploy`
returns the push error and the handler prints it, but the `Run` handler
returns no error value to the CLI framework, so the framework-level
result is success and the process exit status is 0 — contradicting the
documented non-zero-exit-on-abort behavior. -/
theorem run_failure_exits_zero :
    (runDeploy swallowOracle "" true false 1 1 "tok" false [("f", wfn2)]).2
        = .error (.push "boom") ∧
    executeDeployCmd swallowOracle true false false "config.yml" "" "tok" 1 1 =
      ([.logPush "f" "img2" "", .pushCall "img2", .printError (.push "boom")],
       .ok ()) ∧
    exitCode (executeDeployCmd swallowOracle true false false "config.yml" ""
        "tok" 1 1).2 = 0 :=
  ⟨rfl, rfl, rfl⟩

end OpenfxDeploy
